import Mathlib

/-!
Verification development for the portsmith repository: a shallow embedding
of its configuration expansion, privileged-helper file operations, network
setup, SSH client pool and forwarding-engine lifecycle, together with
theorems settling the specification claims about them.

Conventions of the embedding:
* Go strings are modelled as `String` or, where byte-level file content
  matters, as `List Char`.
* Go maps used as sets become `Finset`; Go maps used as caches become
  association lists.
* Go functions that can return an error become `Except String` values.
* Stateful methods become explicit state-passing functions; helper
  invocations are recorded in a trace so that ordering claims can be
  stated.
-/

namespace Portsmith

/-! ### List-of-char utilities modelling Go `strings` functions -/

/-- Core of Go `strings.Split`: returns the current (first) segment being
accumulated and the list of the remaining segments. -/
def splitSepCore (sep : Char) : List Char → List Char × List (List Char)
  | [] => ([], [])
  | c :: cs =>
    let r := splitSepCore sep cs
    if c = sep then ([], r.1 :: r.2) else (c :: r.1, r.2)

/-- Go `strings.Split(content, sep)` on char lists: splits at every
separator, keeping empty segments, always returning at least one segment. -/
def splitSep (sep : Char) (l : List Char) : List (List Char) :=
  (splitSepCore sep l).1 :: (splitSepCore sep l).2

/-- Go `strings.Join(lines, sep)` on char lists. -/
def joinSep (sep : Char) : List (List Char) → List Char
  | [] => []
  | [l] => l
  | l :: ls => l ++ sep :: joinSep sep ls

theorem splitSep_ne_nil (sep : Char) (l : List Char) : splitSep sep l ≠ [] := by
  simp [splitSep]

theorem splitSep_nil (sep : Char) : splitSep sep [] = [[]] := rfl

theorem joinSep_cons₂ (sep : Char) (l l' : List Char) (ls : List (List Char)) :
    joinSep sep (l :: l' :: ls) = l ++ sep :: joinSep sep (l' :: ls) := rfl

theorem joinSep_cons_ne_nil (sep : Char) (l : List Char) (ls : List (List Char))
    (h : ls ≠ []) : joinSep sep (l :: ls) = l ++ sep :: joinSep sep ls := by
  cases ls with
  | nil => exact absurd rfl h
  | cons a as => rfl

theorem joinSep_head_cons (sep : Char) (x : Char) (l : List Char) (ls : List (List Char)) :
    joinSep sep ((x :: l) :: ls) = x :: joinSep sep (l :: ls) := by
  cases ls with
  | nil => rfl
  | cons a as => rfl

theorem splitSepCore_append_cons (sep : Char) (a b : List Char) :
    splitSepCore sep (a ++ sep :: b) =
      ((splitSepCore sep a).1, (splitSepCore sep a).2 ++ splitSep sep b) := by
  induction a with
  | nil => simp [splitSep, splitSepCore]
  | cons c cs ih =>
    by_cases hc : c = sep
    · simp [splitSepCore, hc, ih]
    · simp [splitSepCore, hc, ih]

/-- Splitting distributes over an occurrence of the separator. -/
theorem splitSep_append_cons (sep : Char) (a b : List Char) :
    splitSep sep (a ++ sep :: b) = splitSep sep a ++ splitSep sep b := by
  simp [splitSep, splitSepCore_append_cons]

theorem splitSepCore_of_not_mem (sep : Char) (l : List Char) (h : sep ∉ l) :
    splitSepCore sep l = (l, []) := by
  induction l with
  | nil => rfl
  | cons c cs ih =>
    have hc : ¬ c = sep := fun hcs => h (hcs ▸ List.mem_cons_self c cs)
    have hcs : sep ∉ cs := fun hm => h (List.mem_cons_of_mem c hm)
    simp [splitSepCore, hc, ih hcs]

/-- Splitting a separator-free list yields that single segment. -/
theorem splitSep_of_not_mem (sep : Char) (l : List Char) (h : sep ∉ l) :
    splitSep sep l = [l] := by
  simp [splitSep, splitSepCore_of_not_mem sep l h]

/-- Joining undoes splitting: `strings.Join(strings.Split(c, sep), sep) = c`. -/
theorem joinSep_splitSep (sep : Char) (l : List Char) :
    joinSep sep (splitSep sep l) = l := by
  induction l with
  | nil => rfl
  | cons c cs ih =>
    simp only [splitSep] at ih
    by_cases hc : c = sep
    · subst hc
      have hs : splitSep c (c :: cs) =
          [] :: (splitSepCore c cs).1 :: (splitSepCore c cs).2 := by
        simp [splitSep, splitSepCore]
      rw [hs, joinSep_cons₂, ih]
      rfl
    · have hs : splitSep sep (c :: cs) =
          (c :: (splitSepCore sep cs).1) :: (splitSepCore sep cs).2 := by
        simp [splitSep, splitSepCore, hc]
      rw [hs, joinSep_head_cons, ih]

/-- Any char of a segment of a join occurs in the joined list. -/
theorem mem_joinSep_of_mem (sep : Char) (x : Char) (p : List Char)
    (ls : List (List Char)) (hp : p ∈ ls) (hx : x ∈ p) : x ∈ joinSep sep ls := by
  induction ls with
  | nil => cases hp
  | cons a as ih =>
    cases as with
    | nil =>
      have : p = a := by
        rcases List.mem_cons.mp hp with h | h
        · exact h
        · cases h
      simpa [joinSep] using (this ▸ hx)
    | cons b bs =>
      rw [joinSep_cons₂]
      rcases List.mem_cons.mp hp with h | h
      · exact List.mem_append_left _ (h ▸ hx)
      · exact List.mem_append_right _ (List.mem_cons_of_mem _ (ih h))

/-- A char of a segment produced by `splitSep` occurs in the original list. -/
theorem mem_of_mem_splitSep (sep : Char) (x : Char) (p l : List Char)
    (hp : p ∈ splitSep sep l) (hx : x ∈ p) : x ∈ l := by
  have := mem_joinSep_of_mem sep x p (splitSep sep l) hp hx
  rwa [joinSep_splitSep] at this

/-- Boolean test that `p` is a prefix of `l` (Go `strings.HasPrefix`). -/
def isPrefOf : List Char → List Char → Bool
  | [], _ => true
  | _ :: _, [] => false
  | a :: as, b :: bs => a = b && isPrefOf as bs

/-- Go `strings.Contains(hay, pat)`: `pat` occurs as a contiguous substring. -/
def containsSub (pat : List Char) : List Char → Bool
  | [] => pat.isEmpty
  | c :: rest => isPrefOf pat (c :: rest) || containsSub pat rest

theorem isPrefOf_append (p r : List Char) : isPrefOf p (p ++ r) = true := by
  induction p with
  | nil => rfl
  | cons a as ih => simp [isPrefOf, ih]

theorem containsSub_of_isPrefOf (pat l : List Char) (h : isPrefOf pat l = true) :
    containsSub pat l = true := by
  cases l with
  | nil =>
    cases pat with
    | nil => rfl
    | cons a as => simp [isPrefOf] at h
  | cons c rest => simp [containsSub, h]

theorem containsSub_append_right (pat xs l : List Char)
    (h : containsSub pat l = true) : containsSub pat (xs ++ l) = true := by
  induction xs with
  | nil => simpa
  | cons c cs ih => simp [containsSub, ih]

theorem containsSub_self_append (pat r : List Char) :
    containsSub pat (pat ++ r) = true :=
  containsSub_of_isPrefOf _ _ (isPrefOf_append pat r)

/-- Equality of `Except` results is decidable when both components are. -/
instance {e a : Type} [DecidableEq e] [DecidableEq a] : DecidableEq (Except e a) :=
  fun x y =>
    match x, y with
    | .ok v, .ok w =>
      if h : v = w then isTrue (by rw [h]) else isFalse (by intro hc; cases hc; exact h rfl)
    | .error v, .error w =>
      if h : v = w then isTrue (by rw [h]) else isFalse (by intro hc; cases hc; exact h rfl)
    | .ok _, .error _ => isFalse (by intro hc; cases hc)
    | .error _, .ok _ => isFalse (by intro hc; cases hc)

/-! ### Number scanning, modelling `fmt.Sscanf(v, "%d-%d", ...)` -/

/-- Decimal digit test. -/
def isDigitCh (c : Char) : Bool := '0' ≤ c && c ≤ '9'

/-- Numeric value of a digit char. -/
def digitVal (c : Char) : Nat := c.toNat - '0'.toNat

/-- Value of a digit string, most significant first. -/
def natOfDigits (ds : List Char) : Nat :=
  ds.foldl (fun a c => 10 * a + digitVal c) 0

/-- Scan a decimal natural: consumes a maximal nonempty run of digits,
failing if there is none (as the `%d` verb does). -/
def readNatL (cs : List Char) : Option (Nat × List Char) :=
  let ds := cs.takeWhile isDigitCh
  if ds.isEmpty then none else some (natOfDigits ds, cs.dropWhile isDigitCh)

/-- Scan an optionally signed decimal integer after skipping blanks,
modelling the `%d` verb of the Go scanner. -/
def readIntL (cs : List Char) : Option (Int × List Char) :=
  let cs := cs.dropWhile (fun c => c = ' ' || c = '\t')
  match cs with
  | '-' :: rest => (readNatL rest).map (fun p => (-(p.1 : Int), p.2))
  | '+' :: rest => (readNatL rest).map (fun p => ((p.1 : Int), p.2))
  | _ => (readNatL cs).map (fun p => ((p.1 : Int), p.2))

/-- Model of `fmt.Sscanf(v, "%d-%d", &start, &end)`: an integer, a literal
dash, an integer; input after the second integer is ignored, exactly as
`Sscanf` ignores unconsumed input. `none` models `err != nil || n != 2`. -/
def parseRange (s : String) : Option (Int × Int) :=
  match readIntL s.toList with
  | none => none
  | some (a, rest) =>
    match rest with
    | '-' :: rest2 =>
      match readIntL rest2 with
      | some (b, _) => some (a, b)
      | none => none
    | _ => none

/-! ### IP and hostname validation (helper `validateIP`/`validateHostname`,
and `isIPAddress` from the configuration loader) -/

/-- One dotted-quad field as accepted by `net.ParseIP`: 1 to 3 digits,
value at most 255, no leading zero. -/
def octetVal : List Char → Option Nat
  | [a] => if isDigitCh a then some (digitVal a) else none
  | [a, b] =>
    if isDigitCh a && isDigitCh b && a ≠ '0' then some (10 * digitVal a + digitVal b)
    else none
  | [a, b, c] =>
    if isDigitCh a && isDigitCh b && isDigitCh c && a ≠ '0' &&
        decide (100 * digitVal a + 10 * digitVal b + digitVal c ≤ 255) then
      some (100 * digitVal a + 10 * digitVal b + digitVal c)
    else none
  | _ => none

/-- Model of the IPv4 case of `net.ParseIP`: four dotted decimal fields.
The IPv6 grammar is not needed by any claim and is modelled only by the
exact loopback literal handled in `isLoopbackIP`. -/
def parseIPv4 (s : String) : Option (Nat × Nat × Nat × Nat) :=
  match splitSep '.' s.toList with
  | [a, b, c, d] =>
    match octetVal a, octetVal b, octetVal c, octetVal d with
    | some x, some y, some z, some w => some (x, y, z, w)
    | _, _, _, _ => none
  | _ => none

/-- Model of `isIPAddress` from the configuration loader: `net.ParseIP(s) != nil`. -/
def isIPAddress (s : String) : Bool :=
  (parseIPv4 s).isSome || s = "::1"

/-- Model of `net.IP.IsLoopback` composed with parsing: `127.0.0.0/8` or `::1`. -/
def isLoopbackIP (s : String) : Bool :=
  (match parseIPv4 s with
   | some (a, _, _, _) => a = 127
   | none => false) || s = "::1"

/-- Helper `validateIP`: the argument must parse as an IP literal and be a
loopback address. -/
def validateIP (ip : String) : Except String Unit :=
  if (parseIPv4 ip).isSome || ip = "::1" then
    if isLoopbackIP ip then .ok () else .error ("only loopback addresses allowed: " ++ ip)
  else .error ("invalid IP address: " ++ ip)

/-- Helper `validateHostname`: nonempty, at most 253 chars, no whitespace. -/
def validateHostname (hostname : String) : Except String Unit :=
  if hostname.toList.any (fun c => c = ' ' || c = '\t' || c = '\n' || c = '\r') then
    .error ("invalid hostname (contains whitespace): " ++ hostname)
  else if hostname.length > 253 then .error ("hostname too long: " ++ hostname)
  else if hostname.length = 0 then .error "hostname cannot be empty"
  else .ok ()

/-! ### Port expansion (`ExpandPorts`) and forward derivation
(`NewForwardConfig`, `NeedsPFRedirect`) from config.go -/

/-- One element of the heterogeneous YAML `ports` list: an integer, a
string, or a value of any other type. -/
inductive PortSpec where
  | int (n : Int)
  | str (s : String)
  | other
deriving DecidableEq, Repr

/-- A port element on which `ExpandPorts` reports an error: a string that
is not a syntactically valid range, a reversed range, or an element that is
neither an integer nor a string. -/
def badPortSpec : PortSpec → Bool
  | .int _ => false
  | .str s =>
    match parseRange s with
    | none => true
    | some (a, b) => a > b
  | .other => true

/-- Loop body of `ExpandPorts`, accumulating the `portsMap` set. -/
def expandPortsAux : List PortSpec → Finset Int → Except String (Finset Int)
  | [], acc => .ok acc
  | .int n :: rest, acc => expandPortsAux rest (insert n acc)
  | .str s :: rest, acc =>
    match parseRange s with
    | none => .error ("invalid port range format " ++ s)
    | some (a, b) =>
      if a > b then .error ("invalid port range " ++ s ++ ": start must be at most end")
      else expandPortsAux rest (acc ∪ Finset.Icc a b)
  | .other :: _, _ => .error "invalid port specification: must be int or string range"

/-- Model of `ExpandPorts` from config.go: expands integers and `A-B` range strings
into the deduplicated set of ports (the Go `portsMap`; the final slice is
in unspecified map-iteration order, so the set is the faithful result). -/
def expandPorts (ports : List PortSpec) : Except String (Finset Int) :=
  expandPortsAux ports ∅

/-- HostConfig from config.go (the current revision, with identity_agent). -/
structure HostCfg where
  localIP : String
  hostnames : List String
  remoteHost : String
  jumpHost : String
  jumpPort : Int
  keyPath : String
  identityAgent : String
  ports : List PortSpec
deriving DecidableEq, Repr

/-- ForwardConfig from config.go. -/
structure ForwardCfg where
  localIP : String
  remoteHost : String
  port : Int
  listenPort : Int
  jumpHost : String
  jumpPort : Int
  keyPath : String
  identityAgent : String
deriving DecidableEq, Repr

/-- Model of `NewForwardConfig`: derives the endpoint for one port, remapping
privileged ports to 10000+port. -/
def NewForwardConfig (host : HostCfg) (port : Int) : ForwardCfg :=
  let listenPort := if port < 1024 then 10000 + port else port
  { localIP := host.localIP
    remoteHost := host.remoteHost
    port := port
    listenPort := listenPort
    jumpHost := host.jumpHost
    jumpPort := host.jumpPort
    keyPath := host.keyPath
    identityAgent := host.identityAgent }

/-- Model of `ForwardConfig.NeedsPFRedirect`: true iff the listen port differs from
the advertised port. -/
def NeedsPFRedirect (fc : ForwardCfg) : Bool := fc.port ≠ fc.listenPort

/-- Defaults applied by `LoadConfig` after YAML decoding: jump port 22, key
path, and hostnames defaulting from `remote_host` when that is not an IP
literal. The IP test is a parameter so the theorem covers any `ParseIP`
behaviour; the model instance is `isIPAddress`. Returns the updated host
and whether the missing-hostnames warning was logged. -/
def applyHostDefaults (isIP : String → Bool) (h : HostCfg) : HostCfg × Bool :=
  let h1 := if h.jumpPort = 0 then { h with jumpPort := 22 } else h
  let h2 := if h1.keyPath = "" then { h1 with keyPath := "~/.ssh/id_rsa" } else h1
  if h2.hostnames.isEmpty then
    if isIP h2.remoteHost then (h2, true)
    else ({ h2 with hostnames := [h2.remoteHost] }, false)
  else (h2, false)

/-! ### Privileged helper: resolver-file operations (addHost, removeHost,
removeHosts) on `/etc/hosts` content, modelled byte-for-byte -/

/-- The `hostsMarker` constant `# portsmith-dynamic-forward`. -/
def markerL : List Char := "# portsmith-dynamic-forward".toList

/-- The line matching test used by addHost/removeHost/removeHosts:
`strings.Contains(line, hostsMarker) && strings.Contains(line, hostname)
&& strings.Contains(line, ip)`. -/
def hostsLineMatches (ip name line : List Char) : Bool :=
  containsSub markerL line && containsSub name line && containsSub ip line

/-- The appended resolver line body `"<ip> <name> <marker>"`. -/
def hostsEntry (ip name : List Char) : List Char :=
  ip ++ ' ' :: (name ++ ' ' :: markerL)

/-- Model of `strings.HasSuffix(content, "\n")` on char lists. -/
def endsWithNL : List Char → Bool
  | [] => false
  | [c] => c = '\n'
  | _ :: c :: rest => endsWithNL (c :: rest)

/-- File transformation of helper `add-host` (after validation): append the
marked entry unless a line already matches marker, hostname and ip; ensure
a newline separates it from the previous content. -/
def addHostFile (ip name content : List Char) : List Char :=
  if (splitSep '\n' content).any (hostsLineMatches ip name) then content
  else
    let c1 := if endsWithNL content then content else content ++ ['\n']
    c1 ++ hostsEntry ip name ++ ['\n']

/-- File transformation of helper `remove-host` (after validation): drop
every line matching marker, hostname and ip; rejoin with newlines. -/
def removeHostFile (ip name content : List Char) : List Char :=
  joinSep '\n' ((splitSep '\n' content).filter (fun l => !hostsLineMatches ip name l))

/-- Helper command `add-host IP NAME`: validation then the file edit. -/
def addHost (ip name : String) (content : List Char) : Except String (List Char) := do
  _ ← validateIP ip
  _ ← validateHostname name
  .ok (addHostFile ip.toList name.toList content)

/-- Helper command `remove-host IP NAME`: validation then the file edit. -/
def removeHost (ip name : String) (content : List Char) : Except String (List Char) := do
  _ ← validateIP ip
  _ ← validateHostname name
  .ok (removeHostFile ip.toList name.toList content)

/-- Helper command `remove-hosts`: drop every line containing the marker
(no write happens when nothing matches, leaving the same content). -/
def removeHostsFile (content : List Char) : List Char :=
  let lines := splitSep '\n' content
  if (lines.filter (fun l => containsSub markerL l)).isEmpty then content
  else joinSep '\n' (lines.filter (fun l => !containsSub markerL l))

/-! ### Privileged helper: loopback aliases with the on-disk registry
(the current helper revision, src/unnamed/part_002) -/

/-- State visible to the alias commands: the set of addresses on `lo0` and
the registry persisted at `/var/run/portsmith/aliases`. -/
structure AliasSt where
  iface : List String
  registry : List String
deriving DecidableEq, Repr

/-- Model of `removeAliasesDarwin`: for each registry entry run
`ifconfig lo0 -alias ip` (a failure for an absent alias is a warning and
does not stop the loop), then truncate the registry file. The interface is
never enumerated to choose victims. -/
def removeAliasesDarwin (st : AliasSt) : AliasSt :=
  if st.registry.isEmpty then st
  else
    { iface := st.registry.foldl (fun ifc ip => ifc.filter (fun a => a ≠ ip)) st.iface
      registry := [] }

/-- Model of `addAliasDarwin`: add the alias if absent; in all cases record it in
the registry exactly once. -/
def addAliasDarwin (ip : String) (st : AliasSt) : AliasSt :=
  let st1 := if st.iface.contains ip then st else { st with iface := st.iface ++ [ip] }
  if st1.registry.contains ip then st1 else { st1 with registry := st1.registry ++ [ip] }

/-! ### Network world, helper invocation trace, and NetworkSetup -/

/-- The mutable host state the helper touches. -/
structure NetWorld where
  aliases : List String
  hostEntries : List (String × String)
  redirects : List (String × Int × Int)
deriving DecidableEq, Repr

/-- Empty world. -/
def world0 : NetWorld := { aliases := [], hostEntries := [], redirects := [] }

/-- One helper CLI invocation. -/
inductive HCmd where
  | addAlias (ip : String)
  | removeAlias (ip : String)
  | addHostE (ip name : String)
  | removeHostE (ip name : String)
  | addPF (ip : String) (fromPort toPort : Int)
  | removePF (ip : String) (fromPort toPort : Int)
  | removePFs
  | removeHostsAll
  | removeAliasesAll
deriving DecidableEq, Repr

/-- Effect of a successful helper invocation on the world. -/
def applyHCmd : HCmd → NetWorld → NetWorld
  | .addAlias ip, w =>
    if w.aliases.contains ip then w else { w with aliases := w.aliases ++ [ip] }
  | .removeAlias ip, w => { w with aliases := w.aliases.filter (fun a => a ≠ ip) }
  | .addHostE ip n, w =>
    if w.hostEntries.contains (ip, n) then w
    else { w with hostEntries := w.hostEntries ++ [(ip, n)] }
  | .removeHostE ip n, w =>
    { w with hostEntries := w.hostEntries.filter (fun e => e ≠ (ip, n)) }
  | .addPF ip f t, w =>
    if w.redirects.contains (ip, f, t) then w
    else { w with redirects := w.redirects ++ [(ip, f, t)] }
  | .removePF ip f t, w =>
    { w with redirects := w.redirects.filter (fun e => e ≠ (ip, f, t)) }
  | .removePFs, w => { w with redirects := [] }
  | .removeHostsAll, w => { w with hostEntries := [] }
  | .removeAliasesAll, w => { w with aliases := [] }

/-- World plus the trace of every helper invocation attempted. -/
structure NetSys where
  world : NetWorld
  trace : List HCmd
deriving DecidableEq, Repr

/-- Initial system. -/
def sys0 : NetSys := { world := world0, trace := [] }

/-- Model of `runHelper`: invoke the helper; the oracle decides whether the child
process exits zero. Every invocation is recorded in the trace. -/
def runHelper (oracle : HCmd → Bool) (c : HCmd) (s : NetSys) : Bool × NetSys :=
  if oracle c then (true, { world := applyHCmd c s.world, trace := s.trace ++ [c] })
  else (false, { s with trace := s.trace ++ [c] })

/-- Run a list of helper commands ignoring failures (an undo closure logs
and continues). -/
def runCmds (oracle : HCmd → Bool) (cmds : List HCmd) (s : NetSys) : NetSys :=
  cmds.foldl (fun st c => (runHelper oracle c st).2) s

/-- Model of `NetworkSetup.SetupLoopbackAlias`: run `add-alias`; on success return
the undo (the commands the cleanup closure will run). -/
def setupLoopbackAliasM (oracle : HCmd → Bool) (ip : String) (s : NetSys) :
    Except String (List HCmd) × NetSys :=
  let r := runHelper oracle (.addAlias ip) s
  if r.1 then (.ok [HCmd.removeAlias ip], r.2)
  else (.error ("failed to add loopback alias " ++ ip), r.2)

/-- Loop of `NetworkSetup.AddHostsEntries` over the hostnames. -/
def addHostsLoop (oracle : HCmd → Bool) (ip : String) :
    List String → NetSys → Option String × NetSys
  | [], s => (none, s)
  | n :: rest, s =>
    let r := runHelper oracle (.addHostE ip n) s
    if r.1 then addHostsLoop oracle ip rest r.2
    else (some ("failed to add hosts entry " ++ n ++ " to " ++ ip), r.2)

/-- Model of `NetworkSetup.AddHostsEntries`: empty hostname list yields a no-op
undo; otherwise add every name, failing fast, and return an undo that
removes every name. -/
def addHostsEntriesM (oracle : HCmd → Bool) (ip : String) (names : List String)
    (s : NetSys) : Except String (List HCmd) × NetSys :=
  if names.isEmpty then (.ok [], s)
  else
    match addHostsLoop oracle ip names s with
    | (none, s1) => (.ok (names.map (fun n => HCmd.removeHostE ip n)), s1)
    | (some e, s1) => (.error e, s1)

/-- Model of `NetworkSetup.SetupNetwork`: per host, alias then host entries; on the
first failure return the cleanups accumulated so far together with the
error. -/
def setupNetworkM (oracle : HCmd → Bool) :
    List HostCfg → NetSys → List (List HCmd) × Option String × NetSys
  | [], s => ([], none, s)
  | cfg :: rest, s =>
    match setupLoopbackAliasM oracle cfg.localIP s with
    | (.error e, s1) => ([], some e, s1)
    | (.ok u1, s1) =>
      match addHostsEntriesM oracle cfg.localIP cfg.hostnames s1 with
      | (.error e, s2) => ([u1], some e, s2)
      | (.ok u2, s2) =>
        match setupNetworkM oracle rest s2 with
        | (us, err, s3) => (u1 :: u2 :: us, err, s3)

/-! ### Status channel (buffered capacity 10) and the error window -/

/-- Health tags of a status update. -/
inductive Health where
  | healthy
  | degraded
  | bad
deriving DecidableEq, Repr

/-- One item on the status channel. -/
structure StatusUpdate where
  health : Health
  message : String
deriving DecidableEq, Repr

/-- Number of retained error strings (`maxErrors` in NewDynamicForwarder). -/
def maxErrors : Nat := 5

/-- Capacity of the status channel (`make(chan StatusUpdate, 10)`). -/
def statusChanCap : Nat := 10

/-- Engine state of DynamicForwarder that the claims are about: the cleanup
stack (each entry the helper commands its undo closure runs), the running
flag, the error window, and the status channel buffer. -/
structure Fwd where
  cleanup : List (List HCmd)
  running : Bool
  errorCount : Nat
  lastErrors : List String
  statusChan : List StatusUpdate
  chanClosed : Bool
deriving DecidableEq, Repr

/-- State of a freshly constructed forwarder. -/
def fwd0 : Fwd :=
  { cleanup := [], running := false, errorCount := 0, lastErrors := []
    statusChan := [], chanClosed := false }

/-- A `select`-with-`default` send: drops the update when the buffer is
full, but a send on a closed channel still panics (the default branch does
not protect against a closed channel in Go). -/
def trySend (u : StatusUpdate) (df : Fwd) : Except String Fwd :=
  if df.chanClosed then .error "panic: send on closed channel"
  else if df.statusChan.length < statusChanCap then
    .ok { df with statusChan := df.statusChan ++ [u] }
  else .ok df

/-- Model of `recordError`: append the timestamped message, trim to the last
`maxErrors`, increment the counter, then attempt a non-blocking Degraded
send carrying the new count. -/
def recordError (now errMsg : String) (df : Fwd) : Except String Fwd :=
  let m := now ++ ": " ++ errMsg
  let le0 := df.lastErrors ++ [m]
  let le := if le0.length > maxErrors then le0.drop 1 else le0
  let cnt := df.errorCount + 1
  trySend
    { health := .degraded, message := toString cnt ++ " connection errors - " ++ errMsg }
    { df with lastErrors := le, errorCount := cnt }

/-- Model of `clearErrors`: reset the counter and the window. -/
def clearErrors (df : Fwd) : Fwd :=
  { df with errorCount := 0, lastErrors := [] }

/-! ### DynamicForwarder Start / Stop / Close -/

/-- Per-port loop of `Start`: set up a pf redirect for privileged ports
(pushing its undo) and spawn the acceptor. -/
def startPortsLoop (oracle : HCmd → Bool) (cfg : HostCfg) :
    List Int → Fwd → NetSys → Except String Unit × Fwd × NetSys
  | [], df, s => (.ok (), df, s)
  | port :: rest, df, s =>
    let fc := NewForwardConfig cfg port
    if NeedsPFRedirect fc then
      let r := runHelper oracle (.addPF fc.localIP fc.port fc.listenPort) s
      if r.1 then
        startPortsLoop oracle cfg rest
          { df with cleanup := df.cleanup ++ [[HCmd.removePF fc.localIP fc.port fc.listenPort]] }
          r.2
      else (.error ("failed to setup pf redirect for " ++ fc.localIP), df, r.2)
    else startPortsLoop oracle cfg rest df s

/-- Per-host loop of `Start`: expand ports (failing the whole call on a
malformed or reversed range) then run the per-port loop in ascending port
order (Go map iteration order is unspecified; a fixed order is chosen). -/
def startCfgsLoop (oracle : HCmd → Bool) :
    List HostCfg → Fwd → NetSys → Except String Unit × Fwd × NetSys
  | [], df, s => (.ok (), df, s)
  | cfg :: rest, df, s =>
    match expandPorts cfg.ports with
    | .error e => (.error ("failed to expand ports: " ++ e), df, s)
    | .ok ps =>
      match startPortsLoop oracle cfg (ps.sort (· ≤ ·)) df s with
      | (.ok _, df1, s1) => startCfgsLoop oracle rest df1 s1
      | r => r

/-- Model of `DynamicForwarder.Start`: running check, bulk cleanup (failures
logged), `setupNetwork` (whose partial cleanups are discarded on error and
appended on success), the per-host loop, then mark running, clear errors
and send `Healthy` non-blockingly. No failure path runs any undo. -/
def startModel (oracle : HCmd → Bool) (cfgs : List HostCfg) (df : Fwd) (s : NetSys) :
    Except String Unit × Fwd × NetSys :=
  if df.running then (.error "forwarder is already running", df, s)
  else
    let s := (runHelper oracle .removePFs s).2
    let s := (runHelper oracle .removeHostsAll s).2
    let s := (runHelper oracle .removeAliasesAll s).2
    match setupNetworkM oracle cfgs s with
    | (_, some e, s1) => (.error e, df, s1)
    | (us, none, s1) =>
      match startCfgsLoop oracle cfgs { df with cleanup := df.cleanup ++ us } s1 with
      | (.ok _, df2, s2) =>
        let df3 := clearErrors { df2 with running := true }
        match trySend { health := .healthy, message := "Port forwarding started" } df3 with
        | .ok df4 => (.ok (), df4, s2)
        | .error e => (.error e, df3, s2)
      | r => r

/-- Observable steps of `Stop`/`Close`, in execution order. -/
inductive StopEv where
  | setNotRunning
  | closeStatusChan
  | closeSSHPool
  | runUndo (i : Nat)
deriving DecidableEq, Repr

/-- The cleanup stack paired with the push-order index of each entry,
reversed: the order in which `Close` runs the closures. -/
def indexedRev (cl : List (List HCmd)) : List (Nat × List HCmd) :=
  ((List.range cl.length).zip cl).reverse

/-- Run the undo closures in the given order, emitting one event each. -/
def runUndoList (oracle : HCmd → Bool) :
    List (Nat × List HCmd) → NetSys → NetSys × List StopEv
  | [], s => (s, [])
  | (i, cmds) :: rest, s =>
    let s1 := runCmds oracle cmds s
    let r := runUndoList oracle rest s1
    (r.1, StopEv.runUndo i :: r.2)

/-- Model of `DynamicForwarder.Close`: close the status channel first, close the
SSH pool, then run the cleanup stack in reverse push order. -/
def closeModel (oracle : HCmd → Bool) (df : Fwd) (s : NetSys) :
    Fwd × NetSys × List StopEv :=
  let df1 := { df with chanClosed := true }
  let r := runUndoList oracle (indexedRev df.cleanup) s
  (df1, r.1, StopEv.closeStatusChan :: StopEv.closeSSHPool :: r.2)

/-- Model of `DynamicForwarder.Stop`: a no-op when not running; otherwise clear the
running flag and delegate to `Close`. -/
def stopModel (oracle : HCmd → Bool) (df : Fwd) (s : NetSys) :
    Fwd × NetSys × List StopEv :=
  if df.running then
    let r := closeModel oracle { df with running := false } s
    (r.1, r.2.1, StopEv.setNotRunning :: r.2.2)
  else (df, s, [])

/-- Operations exercising the error window. -/
inductive ErrOp where
  | record (now msg : String)
  | clear
deriving DecidableEq, Repr

/-- One error-window operation on the engine state. -/
def stepErr : ErrOp → Fwd → Except String Fwd
  | .record t m, df => recordError t m df
  | .clear, df => .ok (clearErrors df)

/-- Run a sequence of error-window operations. -/
def runErr : List ErrOp → Fwd → Except String Fwd
  | [], df => .ok df
  | op :: rest, df =>
    match stepErr op df with
    | .ok df1 => runErr rest df1
    | .error e => .error e

/-- The records since the last clear, in order. -/
def sinceClear (ops : List ErrOp) : List (String × String) :=
  ops.foldl
    (fun acc op =>
      match op with
      | .record t m => acc ++ [(t, m)]
      | .clear => [])
    []

/-- The formatted form of a recorded error. -/
def fmtErr (p : String × String) : String := p.1 ++ ": " ++ p.2

/-- A started engine with two pushed undo closures. -/
def fwdTwoUndos : Fwd := { fwd0 with running := true, cleanup := [[], []] }

/-- A started engine with a single pushed undo closure. -/
def fwdOneUndo : Fwd :=
  { fwd0 with running := true, cleanup := [[HCmd.removeAlias "127.0.0.2"]] }

/-! ### SSH client pool (ssh.go) -/

/-- The transport cache key, `fmt.Sprintf("%s:%d", jumpHost, jumpPort)`.
The formatted string is injective in the pair because the port suffix
contains no colon, so the pair itself is the faithful key. -/
structure CKey where
  host : String
  port : Int
deriving DecidableEq, Repr

/-- Pool state: the transport cache (handles as issue numbers), the auth
bundle cache (keys only: a successful load always yields a nonempty
method list), and the next transport issue number. -/
structure PoolSt where
  clients : List (CKey × Nat)
  authKeys : List String
  nextId : Nat
deriving DecidableEq, Repr

/-- Empty pool (`NewSSHClientPool`). -/
def pool0 : PoolSt := { clients := [], authKeys := [], nextId := 0 }

/-- First-match lookup in the transport cache. -/
def lookupC (m : List (CKey × Nat)) (k : CKey) : Option Nat :=
  match m with
  | [] => none
  | e :: rest => if e.1 = k then some e.2 else lookupC rest k

/-- The auth cache key: `keyPath`, or `keyPath + "|" + identityAgent`. -/
def authCacheKey (keyPath idAgent : String) : String :=
  if idAgent = "" then keyPath else keyPath ++ "|" ++ idAgent

/-- Model of `SSHClientPool.GetClient`: return the cached transport if present
(ignoring the auth arguments); otherwise load the auth bundle if missing
(`loadOK` is the outcome of `LoadAuthMethodsWithRetry`), then dial
(`dialOK` the outcome of the dial-with-retries), caching the fresh
transport on success. Returns the result and the updated pool. -/
def getClient (host : String) (port : Int) (keyPath idAgent : String)
    (loadOK dialOK : Bool) (p : PoolSt) : Except String Nat × PoolSt :=
  let k : CKey := { host := host, port := port }
  match lookupC p.clients k with
  | some h => (.ok h, p)
  | none =>
    let ck := authCacheKey keyPath idAgent
    let haveAuth := p.authKeys.contains ck
    let p1 := if haveAuth || loadOK then
        (if haveAuth then p else { p with authKeys := ck :: p.authKeys })
      else p
    if haveAuth || loadOK then
      if dialOK then
        (.ok p1.nextId,
          { p1 with clients := (k, p1.nextId) :: p1.clients, nextId := p1.nextId + 1 })
      else (.error "failed to dial jump host", p1)
    else (.error "failed to load SSH auth methods", p1)

/-- Model of `SSHClientPool.RemoveClient`: close and drop the cached transport for
the key. -/
def removeClient (host : String) (port : Int) (p : PoolSt) : PoolSt :=
  { p with clients := p.clients.filter (fun e => e.1 ≠ CKey.mk host port) }

/-- Model of `SSHClientPool.Close`: close every transport without removing it from
the cache. -/
def closePool (p : PoolSt) : PoolSt := p

/-- One pool operation together with its environment outcomes. -/
inductive PoolOp where
  | get (host : String) (port : Int) (keyPath idAgent : String) (loadOK dialOK : Bool)
  | remove (host : String) (port : Int)
  | closeAll
deriving DecidableEq, Repr

/-- State transition of one pool operation. -/
def stepPool : PoolOp → PoolSt → PoolSt
  | .get h pt kp ia lo dk, p => (getClient h pt kp ia lo dk p).2
  | .remove h pt, p => removeClient h pt p
  | .closeAll, p => closePool p

/-- Every cached transport handle was issued before `nextId`. -/
def handlesBounded (p : PoolSt) : Prop :=
  ∀ e ∈ p.clients, e.2 < p.nextId

/-- Commands that only create host state, never remove any. -/
def isAddHCmd : HCmd → Bool
  | .addAlias _ => true
  | .addHostE _ _ => true
  | .addPF _ _ _ => true
  | _ => false

/-- The literal reversed-range host of spec scenario C. -/
def c1Host : HostCfg :=
  { localIP := "127.0.0.2", hostnames := ["test.local"],
    remoteHost := "app.internal.example.com", jumpHost := "bastion.example.com",
    jumpPort := 22, keyPath := "~/.ssh/id_rsa", identityAgent := "",
    ports := [PortSpec.str "100-50"] }

/-- A pool holding one cached transport to bastion:22 as handle 0. -/
def poolW : PoolSt :=
  { clients := [({ host := "bastion", port := 22 }, 0)], authKeys := [], nextId := 1 }

/-! ## Theorems settling the claims -/

/-! ### C6: listen-port derivation -/

/-- C6: for every port value, the derived endpoint satisfies
`listen_port = 10000 + port` when `port < 1024` and `listen_port = port`
otherwise, and `NeedsPFRedirect` holds iff `port < 1024`. -/
theorem C6_listen_port_rule (host : HostCfg) (port : Int) :
    ((NewForwardConfig host port).listenPort =
      if port < 1024 then 10000 + port else port) ∧
    (NeedsPFRedirect (NewForwardConfig host port) = true ↔ port < 1024) := by
  refine ⟨rfl, ?_⟩
  simp only [NeedsPFRedirect, NewForwardConfig]
  by_cases h : port < 1024 <;> simp [h]

/-! ### C8: hostnames defaulting in LoadConfig -/

/-- C8: for a loaded host with an omitted hostnames list, the effective
hostnames become `[remote_host]` exactly when `remote_host` is not an IP
literal; when it is an IP literal the list stays empty and the warning is
logged. Stated for any IP-literal test; the model instance is
`isIPAddress`. -/
theorem C8_hostname_defaulting (isIP : String → Bool) (h : HostCfg)
    (hn : h.hostnames = []) :
    (isIP h.remoteHost = false →
      (applyHostDefaults isIP h).1.hostnames = [h.remoteHost] ∧
      (applyHostDefaults isIP h).2 = false) ∧
    (isIP h.remoteHost = true →
      (applyHostDefaults isIP h).1.hostnames = [] ∧
      (applyHostDefaults isIP h).2 = true) := by
  simp only [applyHostDefaults]
  split_ifs with h1 h2 h3 h4 <;> simp_all

/-- Witness for C8 at the literal hosts of the spec scenario, with the
modelled `isIPAddress` as the IP test. -/
theorem C8_witness :
    (applyHostDefaults isIPAddress
      { localIP := "127.0.0.2", hostnames := [],
        remoteHost := "app.internal.example.com", jumpHost := "j", jumpPort := 22,
        keyPath := "k", identityAgent := "", ports := [] }).1.hostnames
      = ["app.internal.example.com"] ∧
    (applyHostDefaults isIPAddress
      { localIP := "127.0.0.3", hostnames := [],
        remoteHost := "10.0.0.5", jumpHost := "j", jumpPort := 22,
        keyPath := "k", identityAgent := "", ports := [] }).1.hostnames = [] :=
  ⟨(C8_hostname_defaulting isIPAddress _ rfl).1 (by decide) |>.1,
   (C8_hostname_defaulting isIPAddress _ rfl).2 (by decide) |>.1⟩

/-! ### C2: remove-aliases removes exactly the registered aliases -/

theorem foldl_filter_eq_filter_not_mem (reg : List String) :
    ∀ ifc : List String,
      reg.foldl (fun ifc ip => ifc.filter (fun a => a ≠ ip)) ifc
        = ifc.filter (fun a => decide (a ∉ reg)) := by
  induction reg with
  | nil => intro ifc; simp
  | cons r rs ih =>
    intro ifc
    rw [List.foldl_cons, ih, List.filter_filter]
    congr 1
    funext a
    simp [List.mem_cons, not_or, Bool.and_comm]

/-- C2: for every registry and interface state, `remove-aliases` leaves the
interface with exactly the aliases not listed in the registry (each
registered alias removed, every other alias untouched) and clears the
registry. The helper walks the registry, never the interface. -/
theorem C2_remove_aliases_exact (st : AliasSt) :
    (removeAliasesDarwin st).registry = [] ∧
    (removeAliasesDarwin st).iface
      = st.iface.filter (fun a => decide (a ∉ st.registry)) ∧
    ∀ a ∈ st.iface, a ∉ st.registry → a ∈ (removeAliasesDarwin st).iface := by
  have hif : (removeAliasesDarwin st).iface
      = st.iface.filter (fun a => decide (a ∉ st.registry)) := by
    unfold removeAliasesDarwin
    split_ifs with he
    · have : st.registry = [] := by simpa [List.isEmpty_iff] using he
      simp [this]
    · exact foldl_filter_eq_filter_not_mem st.registry st.iface
  refine ⟨?_, hif, ?_⟩
  · unfold removeAliasesDarwin
    split_ifs with he
    · simpa [List.isEmpty_iff] using he
    · rfl
  · intro a ha hnr
    rw [hif]
    exact List.mem_filter.mpr ⟨ha, by simpa using hnr⟩

/-- Witness for C2 at a concrete state: one registered alias removed, the
unregistered alias and localhost untouched, registry cleared. -/
theorem C2_witness :
    (removeAliasesDarwin
        { iface := ["127.0.0.1", "127.0.0.2", "127.0.0.9"],
          registry := ["127.0.0.2"] }).registry = [] ∧
    "127.0.0.9" ∈ (removeAliasesDarwin
        { iface := ["127.0.0.1", "127.0.0.2", "127.0.0.9"],
          registry := ["127.0.0.2"] }).iface :=
  ⟨(C2_remove_aliases_exact _).1,
   (C2_remove_aliases_exact _).2.2 "127.0.0.9" (by decide) (by decide)⟩

/-! ### C10: recordError after Close panics on the closed status channel -/

/-- C10: connection handlers are goroutines that `Stop`/`Close` neither
cancels nor waits for, so a handler can call `recordError` after `Close`
has closed the status channel; the execution in which that happens is the
one evaluated here. The select-with-default in `recordError` does not
protect a sender from a closed channel: the send faults. -/
theorem C10_record_after_close_panics :
    ((stopModel (fun _ => true) { fwd0 with running := true } sys0).1.chanClosed = true) ∧
    recordError "12:00:05" "SSH client error for bastion.example.com: EOF"
        (stopModel (fun _ => true) { fwd0 with running := true } sys0).1
      = .error "panic: send on closed channel" :=
  ⟨rfl, rfl⟩

/-! ### C5: ExpandPorts -/

theorem expandPortsAux_ints (ns : List Int) :
    ∀ acc, expandPortsAux (ns.map PortSpec.int) acc
      = .ok (ns.foldl (fun s n => insert n s) acc) := by
  induction ns with
  | nil => intro acc; rfl
  | cons n ns ih => intro acc; simp [expandPortsAux, ih]

theorem foldl_insert_eq_union (ns : List Int) :
    ∀ acc : Finset Int, ns.foldl (fun s n => insert n s) acc = acc ∪ ns.toFinset := by
  induction ns with
  | nil => intro acc; simp
  | cons n ns ih =>
    intro acc
    simp [ih, Finset.insert_union, Finset.union_insert]

theorem expandPortsAux_error_iff (l : List PortSpec) :
    ∀ acc, (∃ e, expandPortsAux l acc = .error e) ↔ ∃ p ∈ l, badPortSpec p = true := by
  induction l with
  | nil => intro acc; simp [expandPortsAux]
  | cons p rest ih =>
    intro acc
    cases p with
    | int n => simp [expandPortsAux, badPortSpec, ih]
    | str s =>
      simp only [expandPortsAux]
      cases hpr : parseRange s with
      | none => simp [badPortSpec, hpr]
      | some ab =>
        obtain ⟨a, b⟩ := ab
        by_cases hab : a > b
        · simp [hab, badPortSpec, hpr]
        · simp [hab, badPortSpec, hpr, ih]
    | other => simp [expandPortsAux, badPortSpec]

/-- C5: `ExpandPorts` deduplicates across integer literals and ranges and
is idempotent as a set function; a range string parsing to `(A, B)` with
`A ≤ B` contributes exactly `B - A + 1` distinct ports; and it fails
exactly when some element is a string that is not a well-formed range, a
reversed range, or neither an integer nor a string. The final conjunct is
the literal scenario `[80, 443, "5432-5433", 80]` from the spec. -/
theorem C5_expand_ports :
    (∀ l s, expandPorts l = .ok s →
      expandPorts ((s.sort (· ≤ ·)).map PortSpec.int) = .ok s) ∧
    (∀ s a b, parseRange s = some (a, b) → a ≤ b →
      expandPorts [PortSpec.str s] = .ok (Finset.Icc a b) ∧
      ((Finset.Icc a b).card : Int) = b - a + 1) ∧
    (∀ l, (∃ e, expandPorts l = .error e) ↔ ∃ p ∈ l, badPortSpec p = true) ∧
    expandPorts [PortSpec.int 80, PortSpec.int 443, PortSpec.str "5432-5433",
        PortSpec.int 80]
      = .ok ({80, 443, 5432, 5433} : Finset Int) := by
  refine ⟨?_, ?_, ?_, ?_⟩
  · intro l s _
    rw [expandPorts, expandPortsAux_ints, foldl_insert_eq_union]
    simp [Finset.sort_toFinset]
  · intro s a b hp hab
    have hng : ¬ a > b := not_lt.mpr hab
    constructor
    · rw [expandPorts]
      simp [expandPortsAux, hp, hng]
    · rw [Int.card_Icc]
      omega
  · intro l
    exact expandPortsAux_error_iff l ∅
  · decide

/-- Witness for C5: idempotence at `{80, 443}`, the literal range
`"5432-5433"`, and failure of the reversed range `"100-50"`. -/
theorem C5_witness :
    expandPorts ((({80, 443} : Finset Int).sort (· ≤ ·)).map PortSpec.int)
      = .ok ({80, 443} : Finset Int) ∧
    (expandPorts [PortSpec.str "5432-5433"] = .ok (Finset.Icc 5432 5433) ∧
      ((Finset.Icc (5432 : Int) 5433).card : Int) = 5433 - 5432 + 1) ∧
    (∃ e, expandPorts [PortSpec.str "100-50"] = .error e) :=
  ⟨C5_expand_ports.1 [PortSpec.int 80, PortSpec.int 443] {80, 443} (by decide),
   C5_expand_ports.2.1 "5432-5433" 5432 5433 (by decide) (by decide),
   (C5_expand_ports.2.2.1 [PortSpec.str "100-50"]).mpr
     ⟨PortSpec.str "100-50", by decide, by decide⟩⟩

/-! ### C3: resolver-file round-trip -/

theorem endsWithNL_exists (c : List Char) (h : endsWithNL c = true) :
    ∃ c0, c = c0 ++ ['\n'] := by
  induction c with
  | nil => simp [endsWithNL] at h
  | cons a rest ih =>
    cases rest with
    | nil =>
      simp [endsWithNL] at h
      exact ⟨[], by simp [h]⟩
    | cons b bs =>
      obtain ⟨c0, hc0⟩ := ih (by simpa [endsWithNL] using h)
      exact ⟨a :: c0, by simp [hc0]⟩

theorem mem_joinSep_cases (sep : Char) (x : Char) (ls : List (List Char))
    (h : x ∈ joinSep sep ls) : x = sep ∨ ∃ p ∈ ls, x ∈ p := by
  induction ls with
  | nil => cases h
  | cons a as ih =>
    cases as with
    | nil =>
      right
      exact ⟨a, by simp, by simpa [joinSep] using h⟩
    | cons b bs =>
      rw [joinSep_cons₂] at h
      rcases List.mem_append.mp h with h | h
      · right; exact ⟨a, by simp, h⟩
      · rcases List.mem_cons.mp h with h | h
        · left; exact h
        · rcases ih h with h | hex
          · left; exact h
          · obtain ⟨p, hp, hx⟩ := hex
            right; exact ⟨p, List.mem_cons_of_mem _ hp, hx⟩

theorem mem_splitSep_cases (sep : Char) (x : Char) (l : List Char) (h : x ∈ l) :
    x = sep ∨ ∃ p ∈ splitSep sep l, x ∈ p := by
  rw [← joinSep_splitSep sep l] at h
  exact mem_joinSep_cases sep x (splitSep sep l) h

theorem octetVal_digits (f : List Char) (h : (octetVal f).isSome = true) :
    ∀ c ∈ f, isDigitCh c = true := by
  match f with
  | [] => simp [octetVal] at h
  | [a] =>
    intro c hc
    simp only [octetVal] at h
    split_ifs at h with hd
    · rcases List.mem_cons.mp hc with h1 | h1
      · exact h1 ▸ hd
      · cases h1
    · simp at h
  | [a, b] =>
    intro c hc
    simp only [octetVal] at h
    split_ifs at h with hd
    · simp only [Bool.and_eq_true] at hd
      rcases List.mem_cons.mp hc with h1 | h1
      · exact h1 ▸ hd.1.1
      · rcases List.mem_cons.mp h1 with h2 | h2
        · exact h2 ▸ hd.1.2
        · cases h2
    · simp at h
  | [a, b, cc] =>
    intro c hc
    simp only [octetVal] at h
    split_ifs at h with hd
    · simp only [Bool.and_eq_true] at hd
      rcases List.mem_cons.mp hc with h1 | h1
      · exact h1 ▸ hd.1.1.1.1
      · rcases List.mem_cons.mp h1 with h2 | h2
        · exact h2 ▸ hd.1.1.1.2
        · rcases List.mem_cons.mp h2 with h3 | h3
          · exact h3 ▸ hd.1.1.2
          · cases h3
    · simp at h
  | _ :: _ :: _ :: _ :: _ => simp [octetVal] at h

theorem parseIPv4_no_newline (ip : String) (h : (parseIPv4 ip).isSome = true) :
    '\n' ∉ ip.toList := by
  intro hm
  unfold parseIPv4 at h
  split at h
  all_goals try simp at h
  rename_i a b c d heq
  split at h
  all_goals try simp at h
  rename_i x y z w ha hb hc hd
  rcases mem_splitSep_cases '.' '\n' ip.toList hm with hd' | hex
  · cases hd'
  · obtain ⟨p, hp, hx⟩ := hex
    rw [heq] at hp
    have hpd : (octetVal p).isSome = true := by
      rcases List.mem_cons.mp hp with h1 | h1
      · rw [h1, ha]; rfl
      · rcases List.mem_cons.mp h1 with h2 | h2
        · rw [h2, hb]; rfl
        · rcases List.mem_cons.mp h2 with h3 | h3
          · rw [h3, hc]; rfl
          · rcases List.mem_cons.mp h3 with h4 | h4
            · rw [h4, hd]; rfl
            · cases h4
    have := octetVal_digits p hpd '\n' hx
    simp [isDigitCh] at this

theorem validateIP_no_newline (ip : String) (h : validateIP ip = .ok ()) :
    '\n' ∉ ip.toList := by
  unfold validateIP at h
  split_ifs at h with h1 h2
  rcases Bool.or_eq_true _ _ |>.mp h1 with hv4 | hv6
  · exact parseIPv4_no_newline ip hv4
  · have : ip = "::1" := by simpa using hv6
    subst this
    decide

theorem validateHostname_no_newline (name : String)
    (h : validateHostname name = .ok ()) : '\n' ∉ name.toList := by
  unfold validateHostname at h
  split_ifs at h with h1 h2 h3
  intro hm
  exact h1 (List.any_eq_true.mpr ⟨'\n', hm, by decide⟩)

theorem containsSub_nil_marker : containsSub markerL [] = false := by decide

theorem hostsLineMatches_nil (ip name : List Char) :
    hostsLineMatches ip name [] = false := by
  simp [hostsLineMatches, containsSub_nil_marker]

theorem hostsEntry_no_newline (ip name : List Char) (hip : '\n' ∉ ip)
    (hn : '\n' ∉ name) : '\n' ∉ hostsEntry ip name := by
  intro h
  unfold hostsEntry at h
  rcases List.mem_append.mp h with h | h
  · exact hip h
  · rcases List.mem_cons.mp h with h | h
    · cases h
    · rcases List.mem_append.mp h with h | h
      · exact hn h
      · rcases List.mem_cons.mp h with h | h
        · cases h
        · revert h; decide

theorem containsSub_self (pat : List Char) : containsSub pat pat = true := by
  have := containsSub_self_append pat []
  simpa using this

theorem hostsLineMatches_entry (ip name : List Char) :
    hostsLineMatches ip name (hostsEntry ip name) = true := by
  have hmk : containsSub markerL (hostsEntry ip name) = true := by
    have : hostsEntry ip name = (ip ++ ' ' :: name ++ [' ']) ++ markerL := by
      simp [hostsEntry]
    rw [this]
    exact containsSub_append_right _ _ _ (containsSub_self _)
  have hnm : containsSub name (hostsEntry ip name) = true := by
    have : hostsEntry ip name = (ip ++ [' ']) ++ (name ++ ' ' :: markerL) := by
      simp [hostsEntry]
    rw [this]
    exact containsSub_append_right _ _ _ (containsSub_self_append _ _)
  have hipm : containsSub ip (hostsEntry ip name) = true := by
    unfold hostsEntry
    exact containsSub_self_append _ _
  simp [hostsLineMatches, hmk, hnm, hipm]

theorem addHostFile_no_match (ip name content : List Char)
    (hnm : ∀ l ∈ splitSep '\n' content, hostsLineMatches ip name l = false) :
    addHostFile ip name content =
      (if endsWithNL content then content else content ++ ['\n'])
        ++ hostsEntry ip name ++ ['\n'] := by
  unfold addHostFile
  rw [if_neg]
  intro hany
  obtain ⟨l, hl, hml⟩ := List.any_eq_true.mp hany
  rw [hnm l hl] at hml
  cases hml

/-- Shape of the file and its lines after a successful `add-host` on a
file with no matching line: the new entry и a final empty segment follow
the (newline-terminated) previous content. -/
theorem addHostFile_lines (ip name content : List Char)
    (hip : '\n' ∉ ip) (hn : '\n' ∉ name)
    (hnm : ∀ l ∈ splitSep '\n' content, hostsLineMatches ip name l = false) :
    ∃ c0,
      (if endsWithNL content then content else content ++ ['\n']) = c0 ++ ['\n'] ∧
      splitSep '\n' (addHostFile ip name content)
        = splitSep '\n' c0 ++ [hostsEntry ip name, []] ∧
      splitSep '\n' (if endsWithNL content then content else content ++ ['\n'])
        = splitSep '\n' c0 ++ [[]] ∧
      (∀ l ∈ splitSep '\n' c0, hostsLineMatches ip name l = false) := by
  have hnm' : ∀ l ∈ splitSep '\n'
      (if endsWithNL content then content else content ++ ['\n']),
      hostsLineMatches ip name l = false := by
    intro l hl
    by_cases he : endsWithNL content
    · rw [if_pos he] at hl
      exact hnm l hl
    · rw [if_neg he] at hl
      have : content ++ ['\n'] = content ++ '\n' :: [] := rfl
      rw [this, splitSep_append_cons] at hl
      rcases List.mem_append.mp hl with h | h
      · exact hnm l h
      · rw [splitSep_nil] at h
        rcases List.mem_cons.mp h with h | h
        · rw [h]; exact hostsLineMatches_nil ip name
        · cases h
  obtain ⟨c0, hc0⟩ : ∃ c0,
      (if endsWithNL content then content else content ++ ['\n']) = c0 ++ ['\n'] := by
    by_cases he : endsWithNL content
    · rw [if_pos he]; exact endsWithNL_exists content he
    · rw [if_neg he]; exact ⟨content, rfl⟩
  have hsplit : splitSep '\n'
      (if endsWithNL content then content else content ++ ['\n'])
      = splitSep '\n' c0 ++ [[]] := by
    rw [hc0]
    have : c0 ++ ['\n'] = c0 ++ '\n' :: [] := rfl
    rw [this, splitSep_append_cons, splitSep_nil]
  refine ⟨c0, hc0, ?_, hsplit, ?_⟩
  · rw [addHostFile_no_match ip name content hnm, hc0]
    have hassoc : (c0 ++ ['\n']) ++ hostsEntry ip name ++ ['\n']
        = c0 ++ '\n' :: (hostsEntry ip name ++ ['\n']) := by
      simp
    rw [hassoc, splitSep_append_cons]
    have : hostsEntry ip name ++ ['\n'] = hostsEntry ip name ++ '\n' :: [] := rfl
    rw [this, splitSep_append_cons, splitSep_nil,
      splitSep_of_not_mem '\n' (hostsEntry ip name) (hostsEntry_no_newline ip name hip hn)]
    rfl
  · intro l hl
    exact hnm' l (hsplit ▸ List.mem_append_left _ hl)

/-- Core of the resolver round-trip: remove-after-add restores the
newline-terminated form of the original content. -/
theorem removeHost_addHost_core (ip name content : List Char)
    (hip : '\n' ∉ ip) (hn : '\n' ∉ name)
    (hnm : ∀ l ∈ splitSep '\n' content, hostsLineMatches ip name l = false) :
    removeHostFile ip name (addHostFile ip name content)
      = (if endsWithNL content then content else content ++ ['\n']) := by
  obtain ⟨c0, hc0, hlines, hsplit, hnm0⟩ := addHostFile_lines ip name content hip hn hnm
  unfold removeHostFile
  rw [hlines, List.filter_append]
  have hkeep : (splitSep '\n' c0).filter (fun l => !hostsLineMatches ip name l)
      = splitSep '\n' c0 := by
    rw [List.filter_eq_self]
    intro l hl
    simp [hnm0 l hl]
  have hdrop : ([hostsEntry ip name, []] : List (List Char)).filter
      (fun l => !hostsLineMatches ip name l) = [[]] := by
    simp [List.filter, hostsLineMatches_entry, hostsLineMatches_nil]
  rw [hkeep, hdrop, ← hsplit]
  exact joinSep_splitSep '\n' _

/-- Adding the same pair twice leaves exactly one matching line. -/
theorem addHostFile_twice_count (ip name content : List Char)
    (hip : '\n' ∉ ip) (hn : '\n' ∉ name)
    (hnm : ∀ l ∈ splitSep '\n' content, hostsLineMatches ip name l = false) :
    ((splitSep '\n' (addHostFile ip name (addHostFile ip name content))).filter
        (hostsLineMatches ip name)).length = 1 := by
  obtain ⟨c0, hc0, hlines, hsplit, hnm0⟩ := addHostFile_lines ip name content hip hn hnm
  have hsecond : addHostFile ip name (addHostFile ip name content)
      = addHostFile ip name content := by
    unfold addHostFile
    rw [if_pos]
    exact List.any_eq_true.mpr
      ⟨hostsEntry ip name, hlines ▸ List.mem_append_right _ (by simp),
        hostsLineMatches_entry ip name⟩
  rw [hsecond, hlines, List.filter_append]
  have hnone : (splitSep '\n' c0).filter (hostsLineMatches ip name) = [] := by
    rw [List.filter_eq_nil_iff]
    intro l hl
    simp [hnm0 l hl]
  rw [hnone]
  simp [List.filter, hostsLineMatches_entry, hostsLineMatches_nil]

theorem addHost_ok_inv (ip name : String) (content c1 : List Char)
    (h : addHost ip name content = .ok c1) :
    validateIP ip = .ok () ∧ validateHostname name = .ok () ∧
      c1 = addHostFile ip.toList name.toList content := by
  unfold addHost at h
  cases hv : validateIP ip with
  | error e => rw [hv] at h; simp [Bind.bind, Except.bind] at h
  | ok u =>
    cases u
    rw [hv] at h
    cases hh : validateHostname name with
    | error e => rw [hh] at h; simp [Bind.bind, Except.bind] at h
    | ok u2 =>
      cases u2
      rw [hh] at h
      simp [Bind.bind, Except.bind] at h
      exact ⟨rfl, rfl, h.symm⟩

theorem removeHost_ok_inv (ip name : String) (content c2 : List Char)
    (h : removeHost ip name content = .ok c2) :
    validateIP ip = .ok () ∧ validateHostname name = .ok () ∧
      c2 = removeHostFile ip.toList name.toList content := by
  unfold removeHost at h
  cases hv : validateIP ip with
  | error e => rw [hv] at h; simp [Bind.bind, Except.bind] at h
  | ok u =>
    cases u
    rw [hv] at h
    cases hh : validateHostname name with
    | error e => rw [hh] at h; simp [Bind.bind, Except.bind] at h
    | ok u2 =>
      cases u2
      rw [hh] at h
      simp [Bind.bind, Except.bind] at h
      exact ⟨rfl, rfl, h.symm⟩

/-- C3 is false as stated: on the matching-free content
`"127.0.0.1 localhost"` (no trailing newline) a successful `add-host` then
`remove-host` yields the content plus a trailing newline, not the original
bytes. -/
theorem C3_counterexample :
    (∀ l ∈ splitSep '\n' "127.0.0.1 localhost".toList,
      hostsLineMatches "127.0.0.2".toList "test.local".toList l = false) ∧
    addHost "127.0.0.2" "test.local" "127.0.0.1 localhost".toList
      = .ok ("127.0.0.1 localhost\n127.0.0.2 test.local # portsmith-dynamic-forward\n".toList) ∧
    removeHost "127.0.0.2" "test.local"
        "127.0.0.1 localhost\n127.0.0.2 test.local # portsmith-dynamic-forward\n".toList
      = .ok ("127.0.0.1 localhost\n".toList) ∧
    "127.0.0.1 localhost\n".toList ≠ "127.0.0.1 localhost".toList :=
  ⟨by decide, by decide, by decide, by decide⟩

/-- C3 (amended): for matching-free content, `add-host` then `remove-host`
yields the original content with a trailing newline ensured — hence
byte-for-byte equal whenever the content already ended with a newline —
and running `add-host` twice leaves exactly one matching line. -/
theorem C3_amended_roundtrip (ip name : String) (content c1 c2 : List Char)
    (hnm : ∀ l ∈ splitSep '\n' content,
      hostsLineMatches ip.toList name.toList l = false)
    (h1 : addHost ip name content = .ok c1)
    (h2 : removeHost ip name c1 = .ok c2) :
    c2 = (if endsWithNL content then content else content ++ ['\n']) ∧
    (endsWithNL content = true → c2 = content) ∧
    ((splitSep '\n' (addHostFile ip.toList name.toList c1)).filter
        (hostsLineMatches ip.toList name.toList)).length = 1 := by
  obtain ⟨hvip, hvname, hc1⟩ := addHost_ok_inv ip name content c1 h1
  obtain ⟨_, _, hc2⟩ := removeHost_ok_inv ip name c1 c2 h2
  have hip := validateIP_no_newline ip hvip
  have hn := validateHostname_no_newline name hvname
  have hrt := removeHost_addHost_core ip.toList name.toList content hip hn hnm
  have hcount := addHostFile_twice_count ip.toList name.toList content hip hn hnm
  subst hc1
  subst hc2
  refine ⟨hrt, fun he => by rw [hrt, if_pos he], hcount⟩

/-- Witness for the amended C3 at newline-terminated content. -/
theorem C3_witness :
    "127.0.0.1 localhost\n".toList =
      (if endsWithNL "127.0.0.1 localhost\n".toList then "127.0.0.1 localhost\n".toList
        else "127.0.0.1 localhost\n".toList ++ ['\n']) ∧
    (endsWithNL "127.0.0.1 localhost\n".toList = true →
      "127.0.0.1 localhost\n".toList = "127.0.0.1 localhost\n".toList) ∧
    ((splitSep '\n' (addHostFile "127.0.0.2".toList "test.local".toList
        "127.0.0.1 localhost\n127.0.0.2 test.local # portsmith-dynamic-forward\n".toList)).filter
      (hostsLineMatches "127.0.0.2".toList "test.local".toList)).length = 1 :=
  C3_amended_roundtrip "127.0.0.2" "test.local" "127.0.0.1 localhost\n".toList
    "127.0.0.1 localhost\n127.0.0.2 test.local # portsmith-dynamic-forward\n".toList
    "127.0.0.1 localhost\n".toList
    (by decide) (by decide) (by decide)

/-! ### C4: ordering of effects in Stop/Close -/

theorem runUndoList_events (oracle : HCmd → Bool) (l : List (Nat × List HCmd)) :
    ∀ s, (runUndoList oracle l s).2 = l.map (fun p => StopEv.runUndo p.1) := by
  induction l with
  | nil => intro s; rfl
  | cons p rest ih =>
    intro s
    obtain ⟨i, cmds⟩ := p
    simp [runUndoList, ih]

theorem indexedRev_fsts (cl : List (List HCmd)) :
    (indexedRev cl).map (fun p => StopEv.runUndo p.1)
      = (List.range cl.length).reverse.map StopEv.runUndo := by
  unfold indexedRev
  rw [List.map_reverse, List.map_reverse]
  have : ((List.range cl.length).zip cl).map (fun p => StopEv.runUndo p.1)
      = (((List.range cl.length).zip cl).map Prod.fst).map StopEv.runUndo := by
    rw [List.map_map]
    rfl
  rw [this, List.map_fst_zip]
  rw [List.length_range]

/-- C4 is false as stated: on a started engine with two undos, the event
order of `Stop` is mark-not-running, close status channel, close SSH pool,
then the LIFO undos; in particular the status channel is closed second,
not last, contradicting the claimed order. -/
theorem C4_counterexample :
    (stopModel (fun _ => true) fwdTwoUndos sys0).2.2
      = [StopEv.setNotRunning, StopEv.closeStatusChan, StopEv.closeSSHPool,
          StopEv.runUndo 1, StopEv.runUndo 0] ∧
    (stopModel (fun _ => true) fwdTwoUndos sys0).2.2
      ≠ [StopEv.setNotRunning, StopEv.runUndo 1, StopEv.runUndo 0,
          StopEv.closeSSHPool, StopEv.closeStatusChan] ∧
    (stopModel (fun _ => true) fwdTwoUndos sys0).2.2.getLast?
      ≠ some StopEv.closeStatusChan :=
  ⟨by decide, by decide, by decide⟩

/-- C4 (amended): `Stop` on a started engine marks it not-running, closes
the status channel FIRST, then closes the SSH pool, and runs the N
accumulated undos LAST, in strict LIFO order u_N, ..., u_1. -/
theorem C4_amended_stop_order (oracle : HCmd → Bool) (df : Fwd) (s : NetSys)
    (hr : df.running = true) :
    (stopModel oracle df s).2.2
      = StopEv.setNotRunning :: StopEv.closeStatusChan :: StopEv.closeSSHPool ::
        (List.range df.cleanup.length).reverse.map StopEv.runUndo ∧
    (stopModel oracle df s).1.running = false ∧
    (stopModel oracle df s).1.chanClosed = true := by
  unfold stopModel closeModel
  rw [if_pos hr]
  refine ⟨?_, rfl, rfl⟩
  simp [runUndoList_events, indexedRev_fsts]

/-- Witness for the amended C4 at a one-undo started engine. -/
theorem C4_witness :
    (stopModel (fun _ => true) fwdOneUndo sys0).2.2
      = StopEv.setNotRunning :: StopEv.closeStatusChan :: StopEv.closeSSHPool ::
        (List.range fwdOneUndo.cleanup.length).reverse.map StopEv.runUndo ∧
    (stopModel (fun _ => true) fwdOneUndo sys0).1.running = false ∧
    (stopModel (fun _ => true) fwdOneUndo sys0).1.chanClosed = true :=
  C4_amended_stop_order (fun _ => true) fwdOneUndo sys0 rfl

/-! ### C9: the error-window invariant -/

theorem runErr_append (ops : List ErrOp) (op : ErrOp) :
    ∀ df, runErr (ops ++ [op]) df =
      match runErr ops df with
      | .ok df1 => stepErr op df1
      | .error e => .error e := by
  induction ops with
  | nil =>
    intro df
    simp only [List.nil_append, runErr]
    cases stepErr op df <;> rfl
  | cons o os ih =>
    intro df
    simp only [List.cons_append, runErr]
    cases stepErr o df with
    | ok df1 => exact ih df1
    | error e => rfl

theorem sinceClear_append_record (ops : List ErrOp) (t m : String) :
    sinceClear (ops ++ [.record t m]) = sinceClear ops ++ [(t, m)] := by
  unfold sinceClear
  rw [List.foldl_append]
  rfl

theorem sinceClear_append_clear (ops : List ErrOp) :
    sinceClear (ops ++ [.clear]) = [] := by
  unfold sinceClear
  rw [List.foldl_append]
  rfl

/-- Explicit form of a successful `recordError` on an open channel. -/
theorem recordError_open (t m : String) (df : Fwd) (hcl : df.chanClosed = false) :
    recordError t m df = .ok
      { df with
        errorCount := df.errorCount + 1
        lastErrors :=
          if (df.lastErrors ++ [fmtErr (t, m)]).length > maxErrors
          then (df.lastErrors ++ [fmtErr (t, m)]).drop 1
          else df.lastErrors ++ [fmtErr (t, m)]
        statusChan :=
          if df.statusChan.length < statusChanCap
          then df.statusChan ++
            [{ health := Health.degraded,
               message := toString (df.errorCount + 1) ++ " connection errors - " ++ m }]
          else df.statusChan } := by
  unfold recordError trySend fmtErr
  rw [hcl]
  simp only [Bool.false_eq_true, if_false]
  split_ifs <;> rfl

/-- The one-step window trim equals the keep-the-last-five formula. -/
theorem window_drop_step (msgs : List String) (m : String) :
    (if ((msgs.drop (msgs.length - maxErrors)) ++ [m]).length > maxErrors
      then ((msgs.drop (msgs.length - maxErrors)) ++ [m]).drop 1
      else (msgs.drop (msgs.length - maxErrors)) ++ [m])
    = (msgs ++ [m]).drop ((msgs ++ [m]).length - maxErrors) := by
  unfold maxErrors
  by_cases hsmall : msgs.length < 5
  · have h0 : msgs.length - 5 = 0 := by omega
    have h1 : (msgs ++ [m]).length - 5 = 0 := by
      simp only [List.length_append, List.length_cons, List.length_nil]
      omega
    rw [h0, h1]
    simp only [List.drop_zero]
    rw [if_neg]
    simp only [List.length_append, List.length_cons, List.length_nil]
    omega
  · have hlen : (msgs.drop (msgs.length - 5)).length = 5 := by
      rw [List.length_drop]
      omega
    rw [if_pos]
    · have hidx : msgs.length - 5 + 1 = (msgs ++ [m]).length - 5 := by
        simp only [List.length_append, List.length_cons, List.length_nil]
        omega
      rw [List.drop_append_of_le_length (by rw [hlen]; omega), List.drop_drop, hidx]
      rw [List.drop_append_of_le_length
        (by simp only [List.length_append, List.length_cons, List.length_nil]; omega)]
    · simp only [List.length_append, List.length_cons, List.length_nil, hlen]
      omega

/-- C9: after any sequence of `recordError`/`clearErrors` calls from the
constructor state, the window holds exactly the last five formatted
messages recorded since the last clear (so never more than five), and the
counter equals the number of records since the last clear (so it never
decreases except at a clear); moreover every single `recordError` on an
open channel succeeds, increments the counter by exactly one, and performs
only a non-blocking Degraded send that is dropped when the buffer is full. -/
theorem C9_error_window :
    (∀ ops : List ErrOp, ∃ df : Fwd,
      runErr ops fwd0 = .ok df ∧
      df.lastErrors
        = ((sinceClear ops).map fmtErr).drop ((sinceClear ops).length - maxErrors) ∧
      df.lastErrors.length ≤ maxErrors ∧
      df.errorCount = (sinceClear ops).length ∧
      df.chanClosed = false ∧
      df.statusChan.length ≤ statusChanCap) ∧
    (∀ t m df, df.chanClosed = false →
      ∃ df2, recordError t m df = .ok df2 ∧
        df2.errorCount = df.errorCount + 1 ∧
        (df2.statusChan = df.statusChan ++
            [{ health := Health.degraded,
               message := toString (df.errorCount + 1) ++ " connection errors - " ++ m }] ∨
          (df2.statusChan = df.statusChan ∧ statusChanCap ≤ df.statusChan.length))) ∧
    (∀ df : Fwd, (clearErrors df).errorCount = 0 ∧ (clearErrors df).lastErrors = []) := by
  refine ⟨?_, ?_, ?_⟩
  · intro ops
    induction ops using List.reverseRecOn with
    | nil =>
      exact ⟨fwd0, rfl, by simp [fwd0, sinceClear], by simp [fwd0],
        by simp [fwd0, sinceClear], rfl, by simp [fwd0, statusChanCap]⟩
    | append_singleton ops op ih =>
      obtain ⟨df, hrun, hwin, hlen, hcnt, hcl, hch⟩ := ih
      cases op with
      | clear =>
        refine ⟨clearErrors df, ?_, ?_, ?_, ?_, ?_, ?_⟩
        · rw [runErr_append, hrun]; rfl
        · simp [sinceClear_append_clear, clearErrors]
        · simp [clearErrors]
        · simp [sinceClear_append_clear, clearErrors]
        · simpa [clearErrors] using hcl
        · simpa [clearErrors] using hch
      | record t m =>
        refine ⟨{ df with
            errorCount := df.errorCount + 1
            lastErrors :=
              if (df.lastErrors ++ [fmtErr (t, m)]).length > maxErrors
              then (df.lastErrors ++ [fmtErr (t, m)]).drop 1
              else df.lastErrors ++ [fmtErr (t, m)]
            statusChan :=
              if df.statusChan.length < statusChanCap
              then df.statusChan ++
                [{ health := Health.degraded,
                   message := toString (df.errorCount + 1) ++ " connection errors - " ++ m }]
              else df.statusChan }, ?_, ?_, ?_, ?_, ?_, ?_⟩
        · rw [runErr_append, hrun]
          exact recordError_open t m df hcl
        · dsimp only
          rw [sinceClear_append_record, hwin]
          have hws := window_drop_step ((sinceClear ops).map fmtErr) (fmtErr (t, m))
          simp only [List.length_map] at hws
          rw [hws]
          simp only [List.map_append, List.map_cons, List.map_nil,
            List.length_append, List.length_map, List.length_cons, List.length_nil]
        · dsimp only
          split_ifs with hgt
          · simp only [List.length_drop, List.length_append, List.length_cons,
              List.length_nil]
            omega
          · simp only [List.length_append, List.length_cons, List.length_nil] at hgt ⊢
            omega
        · dsimp only
          simp [sinceClear_append_record, hcnt]
        · exact hcl
        · dsimp only
          split_ifs with hful
          · simp only [List.length_append, List.length_cons, List.length_nil]
            omega
          · exact hch
  · intro t m df hcl
    refine ⟨_, recordError_open t m df hcl, rfl, ?_⟩
    dsimp only
    split_ifs with hful
    · left; rfl
    · right; exact ⟨rfl, by omega⟩
  · intro df
    exact ⟨rfl, rfl⟩

/-- Witness for C9 at a concrete operation sequence of seven records and
an interleaved clear: window keeps the last five since the clear. -/
theorem C9_witness :
    (∃ df : Fwd,
      runErr [ErrOp.record "10:00:00" "e1", ErrOp.record "10:00:01" "e2",
          ErrOp.clear, ErrOp.record "10:00:02" "e3", ErrOp.record "10:00:03" "e4",
          ErrOp.record "10:00:04" "e5", ErrOp.record "10:00:05" "e6",
          ErrOp.record "10:00:06" "e7", ErrOp.record "10:00:07" "e8",
          ErrOp.record "10:00:08" "e9"] fwd0 = .ok df ∧
      df.lastErrors = ((sinceClear [ErrOp.record "10:00:00" "e1",
          ErrOp.record "10:00:01" "e2", ErrOp.clear, ErrOp.record "10:00:02" "e3",
          ErrOp.record "10:00:03" "e4", ErrOp.record "10:00:04" "e5",
          ErrOp.record "10:00:05" "e6", ErrOp.record "10:00:06" "e7",
          ErrOp.record "10:00:07" "e8", ErrOp.record "10:00:08" "e9"]).map fmtErr).drop
        ((sinceClear [ErrOp.record "10:00:00" "e1", ErrOp.record "10:00:01" "e2",
          ErrOp.clear, ErrOp.record "10:00:02" "e3", ErrOp.record "10:00:03" "e4",
          ErrOp.record "10:00:04" "e5", ErrOp.record "10:00:05" "e6",
          ErrOp.record "10:00:06" "e7", ErrOp.record "10:00:07" "e8",
          ErrOp.record "10:00:08" "e9"]).length - maxErrors) ∧
      df.lastErrors.length ≤ maxErrors ∧
      df.errorCount = (sinceClear [ErrOp.record "10:00:00" "e1",
          ErrOp.record "10:00:01" "e2", ErrOp.clear, ErrOp.record "10:00:02" "e3",
          ErrOp.record "10:00:03" "e4", ErrOp.record "10:00:04" "e5",
          ErrOp.record "10:00:05" "e6", ErrOp.record "10:00:06" "e7",
          ErrOp.record "10:00:07" "e8", ErrOp.record "10:00:08" "e9"]).length ∧
      df.chanClosed = false ∧
      df.statusChan.length ≤ statusChanCap) ∧
    (∃ df2, recordError "12:00:00" "dial failed" fwd0 = .ok df2 ∧
      df2.errorCount = fwd0.errorCount + 1 ∧
      (df2.statusChan = fwd0.statusChan ++
          [{ health := Health.degraded,
             message := toString (fwd0.errorCount + 1)
               ++ " connection errors - " ++ "dial failed" }] ∨
        (df2.statusChan = fwd0.statusChan ∧
          statusChanCap ≤ fwd0.statusChan.length))) :=
  ⟨C9_error_window.1 _, C9_error_window.2.1 "12:00:00" "dial failed" fwd0 rfl⟩

/-! ### C7: transport caching in the SSH client pool -/

theorem lookupC_cons (e : CKey × Nat) (m : List (CKey × Nat)) (k : CKey) :
    lookupC (e :: m) k = if e.1 = k then some e.2 else lookupC m k := rfl

theorem lookupC_mem (m : List (CKey × Nat)) (k : CKey) (h : Nat)
    (hl : lookupC m k = some h) : (k, h) ∈ m := by
  induction m with
  | nil => cases hl
  | cons e rest ih =>
    rw [lookupC_cons] at hl
    by_cases he : e.1 = k
    · rw [if_pos he] at hl
      injection hl with hv
      have hek : e = (k, h) := by
        obtain ⟨e1, e2⟩ := e
        simp_all
      rw [hek]
      exact List.mem_cons_self _ _
    · rw [if_neg he] at hl
      exact List.mem_cons_of_mem _ (ih hl)

theorem lookupC_filter_ne (m : List (CKey × Nat)) (k k2 : CKey) (hne : k ≠ k2) :
    lookupC (m.filter (fun e => e.1 ≠ k2)) k = lookupC m k := by
  induction m with
  | nil => rfl
  | cons e rest ih =>
    rw [List.filter_cons]
    by_cases he : e.1 = k2
    · have hek : ¬ e.1 = k := by
        rw [he]
        intro hc
        exact hne hc.symm
      have hf : decide (e.1 ≠ k2) = false := by simp [he]
      rw [hf, if_neg Bool.false_ne_true, ih, lookupC_cons, if_neg hek]
    · have hf : decide (e.1 ≠ k2) = true := by simp [he]
      rw [hf, if_pos rfl, lookupC_cons, lookupC_cons, ih]

theorem lookupC_filter_self (m : List (CKey × Nat)) (k : CKey) :
    lookupC (m.filter (fun e => e.1 ≠ k)) k = none := by
  induction m with
  | nil => rfl
  | cons e rest ih =>
    rw [List.filter_cons]
    by_cases he : e.1 = k
    · have hf : decide (e.1 ≠ k) = false := by simp [he]
      rw [hf, if_neg Bool.false_ne_true]
      exact ih
    · have hf : decide (e.1 ≠ k) = true := by simp [he]
      rw [hf, if_pos rfl, lookupC_cons, if_neg he]
      exact ih

theorem getClient_cache_hit (p : PoolSt) (host : String) (port : Int)
    (kp ia : String) (lo dk : Bool) (h : Nat)
    (hl : lookupC p.clients { host := host, port := port } = some h) :
    getClient host port kp ia lo dk p = (.ok h, p) := by
  simp only [getClient]
  rw [hl]

/-- C7: a cached transport is returned as-is by every `GetClient` call for
its `(jump_host, jump_port)`, whatever the auth arguments; the cache entry
survives every pool operation except `RemoveClient` of that same key
(`Close` does not remove entries); `RemoveClient` clears it; and the next
successful `GetClient` after a removal returns a strictly fresher handle,
never the removed one. -/
theorem C7_pool_caching :
    (∀ p host port kp ia lo dk h,
      lookupC p.clients { host := host, port := port } = some h →
      getClient host port kp ia lo dk p = (.ok h, p)) ∧
    (∀ p op host port h,
      lookupC p.clients { host := host, port := port } = some h →
      op ≠ PoolOp.remove host port →
      lookupC (stepPool op p).clients { host := host, port := port } = some h) ∧
    (∀ p host port,
      lookupC (removeClient host port p).clients { host := host, port := port }
        = none) ∧
    (∀ p op, handlesBounded p → handlesBounded (stepPool op p)) ∧
    (∀ p host port kp ia lo dk h h' p', handlesBounded p →
      lookupC p.clients { host := host, port := port } = some h →
      getClient host port kp ia lo dk (removeClient host port p) = (.ok h', p') →
      h' ≠ h) := by
  have hstep_clients : ∀ p host port kp ia lo dk,
      ((getClient host port kp ia lo dk p).2.clients = p.clients ∧
        (getClient host port kp ia lo dk p).2.nextId = p.nextId) ∨
      ((getClient host port kp ia lo dk p).2.clients
          = (({ host := host, port := port } : CKey), p.nextId) :: p.clients ∧
        (getClient host port kp ia lo dk p).2.nextId = p.nextId + 1 ∧
        lookupC p.clients { host := host, port := port } = none) := by
    intro p host port kp ia lo dk
    simp only [getClient]
    cases hl : lookupC p.clients { host := host, port := port } with
    | some h => left; exact ⟨rfl, rfl⟩
    | none =>
      dsimp only
      split_ifs with h1 h2 h3 <;>
        first
          | (left; exact ⟨rfl, rfl⟩)
          | (right; exact ⟨rfl, rfl, rfl⟩)
  have hmiss : ∀ p host port kp ia lo dk h' p',
      lookupC p.clients { host := host, port := port } = none →
      getClient host port kp ia lo dk p = (.ok h', p') → h' = p.nextId := by
    intro p host port kp ia lo dk h' p' hl hg
    simp only [getClient] at hg
    rw [hl] at hg
    dsimp only at hg
    split_ifs at hg <;>
      first
        | (injection hg with hg1 hg2; injection hg1 with hv; exact hv.symm)
        | (injection hg with hg1 hg2; injection hg1)
  refine ⟨?_, ?_, ?_, ?_, ?_⟩
  · intro p host port kp ia lo dk h hl
    exact getClient_cache_hit p host port kp ia lo dk h hl
  · intro p op host port h hl hne
    cases op with
    | get h2 p2 kp ia lo dk =>
      rcases hstep_clients p h2 p2 kp ia lo dk with ⟨hc, _⟩ | ⟨hc, _, hnone⟩
      · rw [stepPool, hc]
        exact hl
      · have hkne : ({ host := h2, port := p2 } : CKey)
            ≠ { host := host, port := port } := by
          intro he
          rw [he, hl] at hnone
          cases hnone
        rw [stepPool, hc, lookupC_cons, if_neg hkne]
        exact hl
    | remove h2 p2 =>
      have hkne : ({ host := host, port := port } : CKey)
          ≠ { host := h2, port := p2 } := by
        intro he
        apply hne
        cases he
        rfl
      rw [stepPool, removeClient]
      rw [lookupC_filter_ne _ _ _ hkne]
      exact hl
    | closeAll => exact hl
  · intro p host port
    exact lookupC_filter_self p.clients { host := host, port := port }
  · intro p op hb
    cases op with
    | get h2 p2 kp ia lo dk =>
      intro e he
      rcases hstep_clients p h2 p2 kp ia lo dk with ⟨hc, hn⟩ | ⟨hc, hn, _⟩
      · rw [stepPool, hc] at he
        rw [stepPool, hn]
        exact hb e he
      · rw [stepPool, hc] at he
        rw [stepPool, hn]
        rcases List.mem_cons.mp he with hh | hh
        · rw [hh]
          omega
        · have := hb e hh
          omega
    | remove h2 p2 =>
      intro e he
      rw [stepPool, removeClient] at he
      exact hb e (List.mem_of_mem_filter he)
    | closeAll => exact hb
  · intro p host port kp ia lo dk h h' p' hb hl hget
    have hrm := lookupC_filter_self p.clients ({ host := host, port := port } : CKey)
    have hv := hmiss (removeClient host port p) host port kp ia lo dk h' p' hrm hget
    have hhb : h < p.nextId := hb _ (lookupC_mem p.clients _ h hl)
    have hrn : (removeClient host port p).nextId = p.nextId := rfl
    omega

/-- Witness for C7 at a one-entry pool: cache hit ignoring auth arguments,
survival across `Close`, removal, bounded handles, and freshness. -/
theorem C7_witness :
    getClient "bastion" 22 "~/.ssh/id_rsa" "" false false poolW = (.ok 0, poolW) ∧
    lookupC (stepPool PoolOp.closeAll poolW).clients { host := "bastion", port := 22 }
      = some 0 ∧
    lookupC (removeClient "bastion" 22 poolW).clients { host := "bastion", port := 22 }
      = none ∧
    handlesBounded (stepPool PoolOp.closeAll poolW) ∧
    (1 : Nat) ≠ 0 := by
  refine ⟨?_, ?_, C7_pool_caching.2.2.1 poolW "bastion" 22, ?_, ?_⟩
  · exact C7_pool_caching.1 poolW "bastion" 22 "~/.ssh/id_rsa" "" false false 0 rfl
  · exact C7_pool_caching.2.1 poolW PoolOp.closeAll "bastion" 22 0 rfl (by decide)
  · refine C7_pool_caching.2.2.2.1 poolW PoolOp.closeAll ?_
    intro e he
    simp only [poolW] at he
    rcases List.mem_cons.mp he with h | h
    · rw [h]; decide
    · cases h
  · have := C7_pool_caching.2.2.2.2 poolW "bastion" 22 "k" "" true true 0 1
      { clients := [({ host := "bastion", port := 22 }, 1)], authKeys := ["k"], nextId := 2 }
      (by intro e he
          simp only [poolW] at he
          rcases List.mem_cons.mp he with h | h
          · rw [h]; decide
          · cases h)
      rfl (by decide)
    exact this

/-! ### C1: Start never unwinds on failure -/

theorem runHelper_trace (oracle : HCmd → Bool) (c : HCmd) (s : NetSys) :
    (runHelper oracle c s).2.trace = s.trace ++ [c] := by
  unfold runHelper
  split_ifs <;> rfl

theorem addHostsLoop_trace (oracle : HCmd → Bool) (ip : String) :
    ∀ (names : List String) (s : NetSys),
      ∃ d, (addHostsLoop oracle ip names s).2.trace = s.trace ++ d ∧
        d.all isAddHCmd = true := by
  intro names
  induction names with
  | nil => intro s; exact ⟨[], by simp [addHostsLoop], rfl⟩
  | cons n rest ih =>
    intro s
    have htr := runHelper_trace oracle (HCmd.addHostE ip n) s
    simp only [addHostsLoop]
    by_cases h1 : (runHelper oracle (HCmd.addHostE ip n) s).1 = true
    · rw [if_pos h1]
      obtain ⟨d, hd, ha⟩ := ih (runHelper oracle (HCmd.addHostE ip n) s).2
      refine ⟨HCmd.addHostE ip n :: d, ?_, ?_⟩
      · rw [hd, htr]
        simp
      · simp [isAddHCmd, ha]
    · rw [if_neg h1]
      exact ⟨[HCmd.addHostE ip n], htr, rfl⟩

theorem setupLoopbackAliasM_trace (oracle : HCmd → Bool) (ip : String) (s : NetSys) :
    (setupLoopbackAliasM oracle ip s).2.trace = s.trace ++ [HCmd.addAlias ip] := by
  have htr := runHelper_trace oracle (HCmd.addAlias ip) s
  simp only [setupLoopbackAliasM]
  split_ifs <;> exact htr

theorem addHostsEntriesM_trace (oracle : HCmd → Bool) (ip : String)
    (names : List String) (s : NetSys) :
    ∃ d, (addHostsEntriesM oracle ip names s).2.trace = s.trace ++ d ∧
      d.all isAddHCmd = true := by
  unfold addHostsEntriesM
  split_ifs with he
  · exact ⟨[], by simp, rfl⟩
  · obtain ⟨d, hd, ha⟩ := addHostsLoop_trace oracle ip names s
    refine ⟨d, ?_, ha⟩
    cases hm : addHostsLoop oracle ip names s with
    | mk fst snd =>
      rw [hm] at hd
      cases fst with
      | none => exact hd
      | some e => exact hd

theorem setupNetworkM_trace (oracle : HCmd → Bool) :
    ∀ (cfgs : List HostCfg) (s : NetSys),
      ∃ d, (setupNetworkM oracle cfgs s).2.2.trace = s.trace ++ d ∧
        d.all isAddHCmd = true := by
  intro cfgs
  induction cfgs with
  | nil => intro s; exact ⟨[], by simp [setupNetworkM], rfl⟩
  | cons cfg rest ih =>
    intro s
    simp only [setupNetworkM]
    cases hm1 : setupLoopbackAliasM oracle cfg.localIP s with
    | mk r1 s1 =>
      have ht1 : s1.trace = s.trace ++ [HCmd.addAlias cfg.localIP] := by
        have := setupLoopbackAliasM_trace oracle cfg.localIP s
        rw [hm1] at this
        exact this
      cases r1 with
      | error e => exact ⟨[HCmd.addAlias cfg.localIP], ht1, rfl⟩
      | ok u1 =>
        dsimp only
        cases hm2 : addHostsEntriesM oracle cfg.localIP cfg.hostnames s1 with
        | mk r2 s2 =>
          obtain ⟨d2, hd2, ha2⟩ :=
            addHostsEntriesM_trace oracle cfg.localIP cfg.hostnames s1
          rw [hm2] at hd2
          have hd2 : s2.trace = s1.trace ++ d2 := hd2
          cases r2 with
          | error e =>
            refine ⟨HCmd.addAlias cfg.localIP :: d2, ?_, ?_⟩
            · dsimp only
              rw [hd2, ht1]
              simp
            · simp [isAddHCmd, ha2]
          | ok u2 =>
            dsimp only
            cases hm3 : setupNetworkM oracle rest s2 with
            | mk us r3 =>
              cases r3 with
              | mk err s3 =>
                obtain ⟨d3, hd3, ha3⟩ := ih s2
                rw [hm3] at hd3
                have hd3 : s3.trace = s2.trace ++ d3 := hd3
                refine ⟨HCmd.addAlias cfg.localIP :: (d2 ++ d3), ?_, ?_⟩
                · dsimp only
                  rw [hd3, hd2, ht1]
                  simp
                · simp [isAddHCmd, List.all_append, ha2, ha3]

theorem startPortsLoop_trace (oracle : HCmd → Bool) (cfg : HostCfg) :
    ∀ (ports : List Int) (df : Fwd) (s : NetSys),
      ∃ d, (startPortsLoop oracle cfg ports df s).2.2.trace = s.trace ++ d ∧
        d.all isAddHCmd = true := by
  intro ports
  induction ports with
  | nil => intro df s; exact ⟨[], by simp [startPortsLoop], rfl⟩
  | cons port rest ih =>
    intro df s
    simp only [startPortsLoop]
    by_cases hrd : NeedsPFRedirect (NewForwardConfig cfg port) = true
    · rw [if_pos hrd]
      have htr := runHelper_trace oracle
        (HCmd.addPF (NewForwardConfig cfg port).localIP
          (NewForwardConfig cfg port).port (NewForwardConfig cfg port).listenPort) s
      by_cases h1 : (runHelper oracle
          (HCmd.addPF (NewForwardConfig cfg port).localIP
            (NewForwardConfig cfg port).port
            (NewForwardConfig cfg port).listenPort) s).1 = true
      · rw [if_pos h1]
        obtain ⟨d, hd, ha⟩ := ih _ _
        refine ⟨HCmd.addPF (NewForwardConfig cfg port).localIP
          (NewForwardConfig cfg port).port
          (NewForwardConfig cfg port).listenPort :: d, ?_, ?_⟩
        · rw [hd, htr]
          simp
        · simp [isAddHCmd, ha]
      · rw [if_neg h1]
        exact ⟨[HCmd.addPF (NewForwardConfig cfg port).localIP
          (NewForwardConfig cfg port).port
          (NewForwardConfig cfg port).listenPort], htr, rfl⟩
    · rw [if_neg hrd]
      exact ih df s

theorem startCfgsLoop_trace (oracle : HCmd → Bool) :
    ∀ (cfgs : List HostCfg) (df : Fwd) (s : NetSys),
      ∃ d, (startCfgsLoop oracle cfgs df s).2.2.trace = s.trace ++ d ∧
        d.all isAddHCmd = true := by
  intro cfgs
  induction cfgs with
  | nil => intro df s; exact ⟨[], by simp [startCfgsLoop], rfl⟩
  | cons cfg rest ih =>
    intro df s
    simp only [startCfgsLoop]
    cases he : expandPorts cfg.ports with
    | error e =>
      refine ⟨[], ?_, rfl⟩
      dsimp only
      simp
    | ok ps =>
      dsimp only
      cases hm : startPortsLoop oracle cfg (ps.sort (· ≤ ·)) df s with
      | mk r1 rest2 =>
        cases rest2 with
        | mk df1 s1 =>
          obtain ⟨d1, hd1, ha1⟩ :=
            startPortsLoop_trace oracle cfg (ps.sort (· ≤ ·)) df s
          rw [hm] at hd1
          have hd1 : s1.trace = s.trace ++ d1 := hd1
          cases r1 with
          | ok u =>
            dsimp only
            obtain ⟨d2, hd2, ha2⟩ := ih df1 s1
            refine ⟨d1 ++ d2, ?_, ?_⟩
            · rw [hd2, hd1]
              simp
            · simp [List.all_append, ha1, ha2]
          | error e => exact ⟨d1, hd1, ha1⟩

/-- C1 (amended): whenever `Start` runs on a non-running engine, the helper
invocations it makes are exactly the three bulk-cleanup commands followed
only by add-commands: NO undo is ever invoked by `Start`, so when `Start`
fails after the bulk cleanup (setup failure, malformed or reversed range,
pf failure) the error surfaces with every network mutation of that call
left in place — the partial undos of a `SetupNetwork` failure are even
discarded, and later failures leave the pushed undos unrun on the stack. -/
theorem C1_amended_no_undo_on_failure (oracle : HCmd → Bool) (cfgs : List HostCfg)
    (df : Fwd) (s : NetSys) (hr : df.running = false) :
    ∃ rest : List HCmd,
      (startModel oracle cfgs df s).2.2.trace
        = s.trace ++ [HCmd.removePFs, HCmd.removeHostsAll, HCmd.removeAliasesAll]
          ++ rest ∧
      rest.all isAddHCmd = true := by
  simp only [startModel]
  rw [if_neg (by rw [hr]; exact Bool.false_ne_true)]
  have ht1 := runHelper_trace oracle HCmd.removePFs s
  have ht2 := runHelper_trace oracle HCmd.removeHostsAll
    (runHelper oracle HCmd.removePFs s).2
  have ht3 := runHelper_trace oracle HCmd.removeAliasesAll
    (runHelper oracle HCmd.removeHostsAll (runHelper oracle HCmd.removePFs s).2).2
  have htc : (runHelper oracle HCmd.removeAliasesAll
      (runHelper oracle HCmd.removeHostsAll
        (runHelper oracle HCmd.removePFs s).2).2).2.trace
      = s.trace ++ [HCmd.removePFs, HCmd.removeHostsAll, HCmd.removeAliasesAll] := by
    rw [ht3, ht2, ht1]
    simp
  cases hm : setupNetworkM oracle cfgs
      (runHelper oracle HCmd.removeAliasesAll
        (runHelper oracle HCmd.removeHostsAll
          (runHelper oracle HCmd.removePFs s).2).2).2 with
  | mk us r0 =>
    obtain ⟨d0, hd0, ha0⟩ := setupNetworkM_trace oracle cfgs
      (runHelper oracle HCmd.removeAliasesAll
        (runHelper oracle HCmd.removeHostsAll
          (runHelper oracle HCmd.removePFs s).2).2).2
    rw [hm] at hd0
    cases r0 with
    | mk err s4 =>
      have hd0c : s4.trace = s.trace
          ++ [HCmd.removePFs, HCmd.removeHostsAll, HCmd.removeAliasesAll] ++ d0 := by
        have h := hd0
        rw [htc] at h
        exact h
      clear hd0
      cases err with
      | some e => exact ⟨d0, hd0c, ha0⟩
      | none =>
        dsimp only
        cases hc : startCfgsLoop oracle cfgs
            { df with cleanup := df.cleanup ++ us } s4 with
        | mk r1 rest2 =>
          cases rest2 with
          | mk df2 s5 =>
            obtain ⟨d1, hd1, ha1⟩ := startCfgsLoop_trace oracle cfgs
              { df with cleanup := df.cleanup ++ us } s4
            rw [hc] at hd1
            have hd1c : s5.trace = s4.trace ++ d1 := hd1
            have hfin : s5.trace = s.trace
                ++ [HCmd.removePFs, HCmd.removeHostsAll, HCmd.removeAliasesAll]
                ++ (d0 ++ d1) := by
              rw [hd1c, hd0c]
              simp
            refine ⟨d0 ++ d1, ?_, by simp [List.all_append, ha0, ha1]⟩
            cases r1 with
            | ok u =>
              dsimp only
              cases trySend
                  { health := Health.healthy, message := "Port forwarding started" }
                  (clearErrors { df2 with running := true }) with
              | ok df4 => exact hfin
              | error e => exact hfin
            | error e => exact hfin

/-- C1 is false as stated: with every helper call succeeding, `Start` on
the spec scenario-C host (alias and host entry succeed, then the reversed
range `"100-50"` fails port expansion) surfaces an error while the alias
and resolver mutations persist and no undo command was ever invoked. -/
theorem C1_counterexample :
    (∃ e, (startModel (fun _ => true) [c1Host] fwd0 sys0).1 = .error e) ∧
    (startModel (fun _ => true) [c1Host] fwd0 sys0).2.2.world.aliases
      = ["127.0.0.2"] ∧
    (startModel (fun _ => true) [c1Host] fwd0 sys0).2.2.world.hostEntries
      = [("127.0.0.2", "test.local")] ∧
    (startModel (fun _ => true) [c1Host] fwd0 sys0).2.2.trace
      = [HCmd.removePFs, HCmd.removeHostsAll, HCmd.removeAliasesAll,
          HCmd.addAlias "127.0.0.2", HCmd.addHostE "127.0.0.2" "test.local"] ∧
    (startModel (fun _ => true) [c1Host] fwd0 sys0).2.1.cleanup
      = [[HCmd.removeAlias "127.0.0.2"], [HCmd.removeHostE "127.0.0.2" "test.local"]] :=
  ⟨⟨"failed to expand ports: invalid port range 100-50: start must be at most end",
    by decide⟩, by decide, by decide, by decide, by decide⟩

/-- Witness for the amended C1 on the scenario-C configuration. -/
theorem C1_witness :
    ∃ rest : List HCmd,
      (startModel (fun _ => true) [c1Host] fwd0 sys0).2.2.trace
        = sys0.trace
          ++ [HCmd.removePFs, HCmd.removeHostsAll, HCmd.removeAliasesAll] ++ rest ∧
      rest.all isAddHCmd = true :=
  C1_amended_no_undo_on_failure (fun _ => true) [c1Host] fwd0 sys0 rfl

end Portsmith
